import Mathlib

/-!
# Verification of the WAV container encoder of midi-renderer

Shallow embedding of `wrap_as_wav` (src/main.rs, lines 85-158) and proofs of
the claims of the specification about it.

Modelling conventions:
* Sample amplitudes are modelled as rationals.  The Rust code converts each
  `f32` channel value to `f64` before arithmetic.  Every float operation that
  the claims below exercise is exact in `f64` (all products have at most
  24 + 31 significant bits for the 16/24-bit scale factors at the inputs used,
  and the concrete inputs 0, 1, -1, 2, -2 are exactly representable), so exact
  rational arithmetic agrees with the source on every input a claim touches.
* Rust machine integers are modelled as `Nat`/`Int` with explicit `% 2^w`
  where the fixed-width arithmetic of the source can wrap.  Release-build semantics
  are modelled: `debug_assert!` performs no check and `u32` arithmetic wraps.
* The `unreachable!` panic in the per-sample encoding loop (line 148) is
  modelled by `Except.error`; every other path returns `Except.ok`.
* A byte is a `Nat` (in range 0..255 by construction); a buffer is `List Nat`.
-/

/-- Truncation of a rational toward zero.  This is the rounding performed by
a Rust float-to-integer `as` cast (before saturation). -/
def ratTrunc (q : ℚ) : Int := if 0 ≤ q then ⌊q⌋ else ⌈q⌉

/-- A Rust float-to-integer `as` cast with target range `[lo, hi]`:
truncate toward zero, then saturate into the target range. -/
def satCast (lo hi : Int) (q : ℚ) : Int := max lo (min hi (ratTrunc q))

/-- The twos-complement bit pattern of `v` in `w` bits, as a natural
number (the value a Rust `uN` reinterpretation of an `iN` would hold). -/
def toUNat (w : Nat) (v : Int) : Nat := (v % ((2 : Int) ^ w)).toNat

/-- Little-endian bytes of a `u8` (Rust `u8::to_le_bytes`). -/
def u8le (v : Int) : List Nat := [toUNat 8 v]

/-- Little-endian bytes of a `u16` (Rust `u16::to_le_bytes`). -/
def u16le (n : Nat) : List Nat := [n % 256, n / 256 % 256]

/-- Little-endian bytes of a `u32` (Rust `u32::to_le_bytes`).  Applying this
to any `Nat` yields the bytes of its value modulo `2^32`. -/
def u32le (n : Nat) : List Nat :=
  [n % 256, n / 256 % 256, n / 2 ^ 16 % 256, n / 2 ^ 24 % 256]

/-- Little-endian bytes of an `i16` (Rust `i16::to_le_bytes`). -/
def i16le (v : Int) : List Nat := u16le (toUNat 16 v)

/-- Little-endian bytes of an `i32` (Rust `i32::to_le_bytes`). -/
def i32le (v : Int) : List Nat := u32le (toUNat 32 v)

/-- main.rs lines 126-128: 8-bit quantization of one channel.  The amplitude
is shifted by `(x + 1.) / 2.`, scaled by 256 and cast `as u8`. -/
def quant8 (x : ℚ) : Int := satCast 0 255 ((x + 1) / 2 * 256)

/-- main.rs lines 131-132: 16-bit quantization of one channel:
scale by 32767 and cast `as i16`. -/
def quant16 (x : ℚ) : Int := satCast (-32768) 32767 (x * 32767)

/-- main.rs lines 141-142: the 32-bit signed intermediate of the 24-bit path:
scale by 8388607 and cast `as i32`. -/
def quant24i32 (x : ℚ) : Int := satCast (-2147483648) 2147483647 (x * 8388607)

/-- main.rs lines 135-139: the 24-bit `convert` closure.  Take the
little-endian bytes of the 32-bit intermediate and emit
`[bytes[0], bytes[1], (bytes[2] & 0x7F) | (bytes[3] & 0x80)]`.
`b & 0x7F` is `b % 128`; `b & 0x80` for a byte `b` is `b / 128 * 128`;
the two operands of the `|` have disjoint bits, so `|` is `+`. -/
def convert24 (num : Int) : List Nat :=
  let bytes := i32le num
  [bytes.getD 0 0, bytes.getD 1 0,
    bytes.getD 2 0 % 128 + bytes.getD 3 0 / 128 * 128]

/-- main.rs lines 145-146: 32-bit quantization of one channel:
scale by 2147483647 and cast `as i32`. -/
def quant32 (x : ℚ) : Int := satCast (-2147483648) 2147483647 (x * 2147483647)

/-- main.rs lines 124-149: the body of the encoding loop for one `(l, r)`
pair: the bytes appended to `out`, or the `unreachable!` panic (line 148)
for a bit depth other than 8, 16, 24, 32. -/
def pairBytes (bit_depth : Nat) (p : ℚ × ℚ) : Except String (List Nat) :=
  if bit_depth = 8 then
    Except.ok (u8le (quant8 p.1) ++ u8le (quant8 p.2))
  else if bit_depth = 16 then
    Except.ok (i16le (quant16 p.1) ++ i16le (quant16 p.2))
  else if bit_depth = 24 then
    Except.ok (convert24 (quant24i32 p.1) ++ convert24 (quant24i32 p.2))
  else if bit_depth = 32 then
    Except.ok (i32le (quant32 p.1) ++ i32le (quant32 p.2))
  else
    Except.error "Unexpected bit depth"

/-- main.rs lines 121-150: the whole encoding loop over the sample
sequence.  Propagates the per-sample panic as an error. -/
def dataBytes (bit_depth : Nat) : List (ℚ × ℚ) → Except String (List Nat)
  | [] => Except.ok []
  | p :: rest =>
    match pairBytes bit_depth p with
    | Except.error e => Except.error e
    | Except.ok b =>
      match dataBytes bit_depth rest with
      | Except.error e => Except.error e
      | Except.ok d => Except.ok (b ++ d)

/-- main.rs lines 93-120: the 44-byte header, as a function of the sample
rate, the bit depth and the number `n` of sample pairs.  `sample_count` is
`n` cast `as u32` (line 97) and all `u32` products and sums wrap modulo
`2^32` (release semantics); the `u16` block-align product wraps modulo
`2^16`.  The parameters are `Nat`; the `% 2^32` / `% 2^16` at their use
sites make the model agree with the `u32`/`u16` typing of the source for every
in-range argument. -/
def wavHeader (sample_rate bit_depth n : Nat) : List Nat :=
  let byte_depth := bit_depth / 8
  let sample_count := n % 2 ^ 32
  let expected_data_length := sample_count * 2 * byte_depth % 2 ^ 32
  [0x52, 0x49, 0x46, 0x46]
    ++ u32le ((36 + expected_data_length) % 2 ^ 32)
    ++ [0x57, 0x41, 0x56, 0x45]
    ++ [0x66, 0x6D, 0x74, 0x20]
    ++ u32le 16
    ++ u16le 1
    ++ u16le 2
    ++ u32le (sample_rate % 2 ^ 32)
    ++ u32le (sample_rate * 2 * byte_depth % 2 ^ 32)
    ++ u16le (2 * byte_depth % 2 ^ 16)
    ++ u16le (bit_depth % 2 ^ 16)
    ++ [0x64, 0x61, 0x74, 0x61]
    ++ u32le expected_data_length

/-- main.rs lines 85-158: `wrap_as_wav`.  Emits the header followed by the
encoded samples; an invalid bit depth surfaces as an error exactly when the
encoding loop hits the `unreachable!`, i.e. only if at least one sample is
processed. -/
def wrap_as_wav (samples : List (ℚ × ℚ)) (sample_rate bit_depth : Nat) :
    Except String (List Nat) :=
  match dataBytes bit_depth samples with
  | Except.error e => Except.error e
  | Except.ok d => Except.ok (wavHeader sample_rate bit_depth samples.length ++ d)

/-- Reads the unsigned little-endian 16-bit field at byte offset `i`. -/
def field16 (out : List Nat) (i : Nat) : Nat :=
  out.getD i 0 + 256 * out.getD (i + 1) 0

/-- Reads the unsigned little-endian 32-bit field at byte offset `i`. -/
def field32 (out : List Nat) (i : Nat) : Nat :=
  out.getD i 0 + 256 * out.getD (i + 1) 0 + 65536 * out.getD (i + 2) 0
    + 16777216 * out.getD (i + 3) 0

/-- Decodes a little-endian 3-byte group as a sign-extended 24-bit signed
integer (the value a WAV reader reconstructs from a 24-bit sample). -/
def decodeS24 (bs : List Nat) : Int :=
  let v := bs.getD 0 0 + 256 * bs.getD 1 0 + 65536 * bs.getD 2 0
  if v < 2 ^ 23 then (v : Int) else (v : Int) - 2 ^ 24

lemma ratTrunc_intCast (m : Int) : ratTrunc (m : ℚ) = m := by
  rw [ratTrunc]; split
  · exact Int.floor_intCast m
  · exact Int.ceil_intCast m

lemma le_ratTrunc (a : Int) (q : ℚ) (h : (a : ℚ) ≤ q) : a ≤ ratTrunc q := by
  rw [ratTrunc]; split
  · exact Int.le_floor.mpr h
  · calc a = ⌈(a : ℚ)⌉ := (Int.ceil_intCast a).symm
      _ ≤ ⌈q⌉ := Int.ceil_le_ceil h

lemma ratTrunc_le (b : Int) (q : ℚ) (h : q ≤ (b : ℚ)) : ratTrunc q ≤ b := by
  rw [ratTrunc]; split
  · calc ⌊q⌋ ≤ ⌊(b : ℚ)⌋ := Int.floor_le_floor h
      _ = b := Int.floor_intCast b
  · exact Int.ceil_le.mpr h

lemma satCast_eval (lo hi : Int) (q : ℚ) (m : Int) (hq : q = (m : ℚ)) :
    satCast lo hi q = max lo (min hi m) := by
  rw [satCast, hq, ratTrunc_intCast]

lemma satCast_of_mem (lo hi : Int) (q : ℚ) (h1 : lo ≤ ratTrunc q)
    (h2 : ratTrunc q ≤ hi) : satCast lo hi q = ratTrunc q := by
  rw [satCast, min_eq_right h2, max_eq_right h1]

lemma satCast_hi (lo hi : Int) (q : ℚ) (hlohi : lo ≤ hi)
    (h : hi ≤ ratTrunc q) : satCast lo hi q = hi := by
  rw [satCast, min_eq_left h, max_eq_right hlohi]

lemma satCast_lo (lo hi : Int) (q : ℚ) (hlohi : lo ≤ hi)
    (h : ratTrunc q ≤ lo) : satCast lo hi q = lo := by
  rw [satCast, min_eq_right (h.trans hlohi), max_eq_left h]

lemma satCast_bounds (lo hi : Int) (q : ℚ) (h : lo ≤ hi) :
    lo ≤ satCast lo hi q ∧ satCast lo hi q ≤ hi :=
  ⟨le_max_left _ _, max_le h (min_le_left _ _)⟩

-- the 24-bit reconstruction round-trip
lemma convert24_decode (n : Int) (h1 : -8388608 ≤ n) (h2 : n ≤ 8388607) :
    decodeS24 (convert24 n) = n := by
  simp only [convert24, decodeS24, i32le, u32le, toUNat, List.getD_cons_zero,
    List.getD_cons_succ]
  split <;> omega

lemma wavHeader_length (sr bd n : Nat) : (wavHeader sr bd n).length = 44 := rfl

lemma wavHeader_drop (sr bd n : Nat) (d : List Nat) :
    (wavHeader sr bd n ++ d).drop 44 = d := rfl

lemma wavHeader_take4 (sr bd n : Nat) (d : List Nat) :
    (wavHeader sr bd n ++ d).take 4 = [0x52, 0x49, 0x46, 0x46] := rfl

lemma wavHeader_wave (sr bd n : Nat) (d : List Nat) :
    ((wavHeader sr bd n ++ d).drop 8).take 4 = [0x57, 0x41, 0x56, 0x45] := rfl

lemma wavHeader_fmt (sr bd n : Nat) (d : List Nat) :
    ((wavHeader sr bd n ++ d).drop 12).take 4 = [0x66, 0x6D, 0x74, 0x20] := rfl

lemma wavHeader_data (sr bd n : Nat) (d : List Nat) :
    ((wavHeader sr bd n ++ d).drop 36).take 4 = [0x64, 0x61, 0x74, 0x61] := rfl

lemma field32_header_4 (sr bd n : Nat) (d : List Nat) :
    field32 (wavHeader sr bd n ++ d) 4 =
      (36 + n % 2 ^ 32 * 2 * (bd / 8) % 2 ^ 32) % 2 ^ 32 := by
  simp only [wavHeader, u32le, u16le, field32, List.cons_append, List.nil_append,
    List.getD_cons_zero, List.getD_cons_succ]
  generalize n % 2 ^ 32 * 2 * (bd / 8) = e
  omega

lemma field32_header_28 (sr bd n : Nat) (d : List Nat) :
    field32 (wavHeader sr bd n ++ d) 28 = sr * 2 * (bd / 8) % 2 ^ 32 := by
  simp only [wavHeader, u32le, u16le, field32, List.cons_append, List.nil_append,
    List.getD_cons_zero, List.getD_cons_succ]
  generalize sr * 2 * (bd / 8) = e
  omega

lemma field16_header_32 (sr bd n : Nat) (d : List Nat) :
    field16 (wavHeader sr bd n ++ d) 32 = 2 * (bd / 8) % 2 ^ 16 := by
  simp only [wavHeader, u32le, u16le, field16, List.cons_append, List.nil_append,
    List.getD_cons_zero, List.getD_cons_succ]
  generalize 2 * (bd / 8) = e
  omega

lemma field32_header_40 (sr bd n : Nat) (d : List Nat) :
    field32 (wavHeader sr bd n ++ d) 40 = n % 2 ^ 32 * 2 * (bd / 8) % 2 ^ 32 := by
  simp only [wavHeader, u32le, u16le, field32, List.cons_append, List.nil_append,
    List.getD_cons_zero, List.getD_cons_succ]
  generalize n % 2 ^ 32 * 2 * (bd / 8) = e
  omega

lemma pairBytes_valid_ok (bd : Nat) (h : bd = 8 ∨ bd = 16 ∨ bd = 24 ∨ bd = 32)
    (p : ℚ × ℚ) : ∃ b, pairBytes bd p = Except.ok b ∧ b.length = 2 * (bd / 8) := by
  rcases h with h | h | h | h <;> subst h <;> exact ⟨_, rfl, rfl⟩

lemma dataBytes_valid_ok (bd : Nat) (h : bd = 8 ∨ bd = 16 ∨ bd = 24 ∨ bd = 32)
    (samples : List (ℚ × ℚ)) :
    ∃ d, dataBytes bd samples = Except.ok d ∧
      d.length = samples.length * (2 * (bd / 8)) := by
  induction samples with
  | nil => exact ⟨[], rfl, by simp⟩
  | cons p rest ih =>
    obtain ⟨b, hb, hbl⟩ := pairBytes_valid_ok bd h p
    obtain ⟨d, hd, hdl⟩ := ih
    refine ⟨b ++ d, ?_, ?_⟩
    · rw [dataBytes, hb, hd]
    · rw [List.length_append, hbl, hdl, List.length_cons]
      ring

lemma wrap_eq (samples : List (ℚ × ℚ)) (sr bd : Nat) (d : List Nat)
    (hd : dataBytes bd samples = Except.ok d) :
    wrap_as_wav samples sr bd = Except.ok (wavHeader sr bd samples.length ++ d) := by
  rw [wrap_as_wav, hd]

lemma lt_ratTrunc_of_nonpos (a : Int) (q : ℚ) (hq : q ≤ 0) (h : (a : ℚ) < q) :
    a < ratTrunc q := by
  rw [ratTrunc]; split
  · rename_i h0
    have hq0 : q = 0 := le_antisymm hq h0
    subst hq0
    have : a < 0 := by exact_mod_cast h
    simpa using this
  · have h1 : q ≤ (⌈q⌉ : ℚ) := Int.le_ceil q
    exact_mod_cast h.trans_le h1

/-- C1: for every valid bit depth, sample rate and sample sequence
(including the empty one), `wrap_as_wav` returns a buffer of length exactly
`44 + sample_count * 2 * (bit_depth / 8)`. -/
theorem C1_output_length (samples : List (ℚ × ℚ)) (sr bd : Nat)
    (h : bd = 8 ∨ bd = 16 ∨ bd = 24 ∨ bd = 32) :
    ∃ out, wrap_as_wav samples sr bd = Except.ok out ∧
      out.length = 44 + samples.length * 2 * (bd / 8) := by
  obtain ⟨d, hd, hdl⟩ := dataBytes_valid_ok bd h samples
  refine ⟨_, wrap_eq samples sr bd d hd, ?_⟩
  rw [List.length_append, wavHeader_length, hdl]
  ring

/-- Witness for C1 at one sample pair, 16-bit, 48000 Hz. -/
theorem C1_output_length_witness :
    ∃ out, wrap_as_wav [(0, 0)] 48000 16 = Except.ok out ∧
      out.length = 44 + [((0 : ℚ), (0 : ℚ))].length * 2 * (16 / 8) :=
  C1_output_length [(0, 0)] 48000 16 (Or.inr (Or.inl rfl))

/-- C2 counterexample: with the invalid bit depth 40 and the empty sample
sequence, `wrap_as_wav` runs to completion and returns a buffer; it does not
fail fast (the per-sample `unreachable!` is never reached and the release
build performs no `debug_assert` check). -/
theorem C2_counterexample :
    (wrap_as_wav [] 48000 40).isOk = true ∧
      ¬ (40 = 8 ∨ 40 = 16 ∨ 40 = 24 ∨ 40 = 32) :=
  ⟨rfl, by decide⟩

/-- C2 amended: with a bit depth outside {8, 16, 24, 32}, `wrap_as_wav`
fails (hits the `unreachable!` panic) on every nonempty sample sequence and
never returns a buffer for such a sequence; the empty sequence instead
yields a header-only buffer. -/
theorem C2_invalid_depth (samples : List (ℚ × ℚ)) (sr bd : Nat)
    (h : ¬ (bd = 8 ∨ bd = 16 ∨ bd = 24 ∨ bd = 32)) (hne : samples ≠ []) :
    ∃ e, wrap_as_wav samples sr bd = Except.error e := by
  push_neg at h
  obtain ⟨h8, h16, h24, h32⟩ := h
  match samples, hne with
  | p :: rest, _ =>
    refine ⟨"Unexpected bit depth", ?_⟩
    simp [wrap_as_wav, dataBytes, pairBytes, h8, h16, h24, h32]

/-- Witness for C2 amended at bit depth 40 and one silent sample pair. -/
theorem C2_invalid_depth_witness :
    ∃ e, wrap_as_wav [(0, 0)] 48000 40 = Except.error e :=
  C2_invalid_depth [(0, 0)] 48000 40 (by decide) (List.cons_ne_nil _ _)

/-- C3: for every valid bit depth, sample rate and sample sequence, the
output starts with "RIFF", has "WAVE" at bytes 8-11, "fmt " at bytes 12-15
and "data" at bytes 36-39 (ASCII). -/
theorem C3_magic_bytes (samples : List (ℚ × ℚ)) (sr bd : Nat)
    (h : bd = 8 ∨ bd = 16 ∨ bd = 24 ∨ bd = 32) (out : List Nat)
    (hout : wrap_as_wav samples sr bd = Except.ok out) :
    out.take 4 = [0x52, 0x49, 0x46, 0x46] ∧
      (out.drop 8).take 4 = [0x57, 0x41, 0x56, 0x45] ∧
      (out.drop 12).take 4 = [0x66, 0x6D, 0x74, 0x20] ∧
      (out.drop 36).take 4 = [0x64, 0x61, 0x74, 0x61] := by
  obtain ⟨d, hd, -⟩ := dataBytes_valid_ok bd h samples
  rw [wrap_eq samples sr bd d hd] at hout
  injection hout with hout
  subst hout
  exact ⟨wavHeader_take4 _ _ _ _, wavHeader_wave _ _ _ _, wavHeader_fmt _ _ _ _,
    wavHeader_data _ _ _ _⟩

/-- Witness for C3 on the empty sequence at 16-bit, 48000 Hz. -/
theorem C3_magic_bytes_witness :
    (wavHeader 48000 16 0 ++ []).take 4 = [0x52, 0x49, 0x46, 0x46] ∧
      ((wavHeader 48000 16 0 ++ []).drop 8).take 4 = [0x57, 0x41, 0x56, 0x45] ∧
      ((wavHeader 48000 16 0 ++ []).drop 12).take 4 = [0x66, 0x6D, 0x74, 0x20] ∧
      ((wavHeader 48000 16 0 ++ []).drop 36).take 4 = [0x64, 0x61, 0x74, 0x61] :=
  C3_magic_bytes [] 48000 16 (Or.inr (Or.inl rfl)) (wavHeader 48000 16 0 ++ []) rfl

/-- C4: for every valid bit depth, sample rate and sample sequence, with
`data_length` the unsigned 32-bit value `sample_count * 2 * (bit_depth/8)`,
bytes 4-7 hold `36 + data_length` and bytes 40-43 hold `data_length`, both
little-endian 32-bit. -/
theorem C4_size_fields (samples : List (ℚ × ℚ)) (sr bd : Nat)
    (h : bd = 8 ∨ bd = 16 ∨ bd = 24 ∨ bd = 32) (out : List Nat)
    (hout : wrap_as_wav samples sr bd = Except.ok out) :
    field32 out 4 = (36 + samples.length * 2 * (bd / 8) % 2 ^ 32) % 2 ^ 32 ∧
      field32 out 40 = samples.length * 2 * (bd / 8) % 2 ^ 32 := by
  obtain ⟨d, hd, -⟩ := dataBytes_valid_ok bd h samples
  rw [wrap_eq samples sr bd d hd] at hout
  injection hout with hout
  subst hout
  rw [field32_header_4, field32_header_40]
  rcases h with h | h | h | h <;> subst h <;> constructor <;> omega

/-- Witness for C4 on the empty sequence at 8-bit, 48000 Hz. -/
theorem C4_size_fields_witness :
    field32 (wavHeader 48000 8 0 ++ []) 4 =
        (36 + (List.nil : List (ℚ × ℚ)).length * 2 * (8 / 8) % 2 ^ 32) % 2 ^ 32 ∧
      field32 (wavHeader 48000 8 0 ++ []) 40 =
        (List.nil : List (ℚ × ℚ)).length * 2 * (8 / 8) % 2 ^ 32 :=
  C4_size_fields [] 48000 8 (Or.inl rfl) (wavHeader 48000 8 0 ++ []) rfl

/-- C5 counterexample: at sample rate 2^31 and bit depth 8 the byte-rate
product `sample_rate * 2 * (bit_depth/8) = 2^32` overflows the `u32` field,
which therefore holds 0, not the product. -/
theorem C5_counterexample :
    wrap_as_wav [] 2147483648 8 = Except.ok (wavHeader 2147483648 8 0 ++ []) ∧
      field32 (wavHeader 2147483648 8 0 ++ []) 28 = 0 ∧
      2147483648 * 2 * (8 / 8) ≠ 0 :=
  ⟨rfl, by decide, by decide⟩

/-- C5 amended: the byte-rate field holds
`sample_rate * 2 * (bit_depth/8)` reduced modulo 2^32 (hence the product
itself whenever that fits in 32 bits), and the block-align field always
holds `2 * (bit_depth/8)`. -/
theorem C5_rate_fields (samples : List (ℚ × ℚ)) (sr bd : Nat)
    (h : bd = 8 ∨ bd = 16 ∨ bd = 24 ∨ bd = 32) (out : List Nat)
    (hout : wrap_as_wav samples sr bd = Except.ok out) :
    field32 out 28 = sr * 2 * (bd / 8) % 2 ^ 32 ∧
      field16 out 32 = 2 * (bd / 8) := by
  obtain ⟨d, hd, -⟩ := dataBytes_valid_ok bd h samples
  rw [wrap_eq samples sr bd d hd] at hout
  injection hout with hout
  subst hout
  rw [field32_header_28, field16_header_32]
  rcases h with h | h | h | h <;> subst h <;> exact ⟨rfl, rfl⟩

/-- Witness for C5 amended on the empty sequence at 16-bit, 48000 Hz. -/
theorem C5_rate_fields_witness :
    field32 (wavHeader 48000 16 0 ++ []) 28 = 48000 * 2 * (16 / 8) % 2 ^ 32 ∧
      field16 (wavHeader 48000 16 0 ++ []) 32 = 2 * (16 / 8) :=
  C5_rate_fields [] 48000 16 (Or.inr (Or.inl rfl)) (wavHeader 48000 16 0 ++ []) rfl

/-- C6: for every valid bit depth and sample rate, the empty sample
sequence yields a header-only 44-byte buffer whose ChunkSize field decodes
to 36 and whose data-length field decodes to 0 (in particular at 16-bit,
48000 Hz — the witness). -/
theorem C6_empty_sequence (sr bd : Nat)
    (_h : bd = 8 ∨ bd = 16 ∨ bd = 24 ∨ bd = 32) :
    ∃ out, wrap_as_wav [] sr bd = Except.ok out ∧ out.length = 44 ∧
      field32 out 4 = 36 ∧ field32 out 40 = 0 := by
  refine ⟨wavHeader sr bd 0 ++ [], wrap_eq [] sr bd [] rfl, ?_, ?_, ?_⟩
  · rw [List.length_append, wavHeader_length]; rfl
  · rw [field32_header_4]; simp
  · rw [field32_header_40]; simp

/-- Witness for C6 at 16-bit, 48000 Hz. -/
theorem C6_empty_sequence_witness :
    ∃ out, wrap_as_wav [] 48000 16 = Except.ok out ∧ out.length = 44 ∧
      field32 out 4 = 36 ∧ field32 out 40 = 0 :=
  C6_empty_sequence 48000 16 (Or.inr (Or.inl rfl))

/-- C7: the silent pair (0, 0) encodes to exactly-zero data bytes at bit
depths 16 (bytes 44-47 = 00 00 00 00), 24 and 32, and to the unsigned
midpoint bytes 80 80 at bit depth 8, for every sample rate. -/
theorem C7_silence (sr : Nat) :
    (∃ out, wrap_as_wav [(0, 0)] sr 16 = Except.ok out ∧
      out.drop 44 = [0x00, 0x00, 0x00, 0x00]) ∧
    (∃ out, wrap_as_wav [(0, 0)] sr 24 = Except.ok out ∧
      out.drop 44 = [0x00, 0x00, 0x00, 0x00, 0x00, 0x00]) ∧
    (∃ out, wrap_as_wav [(0, 0)] sr 32 = Except.ok out ∧
      out.drop 44 = [0x00, 0x00, 0x00, 0x00, 0x00, 0x00, 0x00, 0x00]) ∧
    (∃ out, wrap_as_wav [(0, 0)] sr 8 = Except.ok out ∧
      out.drop 44 = [0x80, 0x80]) := by
  have h16 : quant16 0 = 0 := by
    rw [quant16, satCast_eval _ _ _ 0 (by norm_num)]; decide
  have h24 : quant24i32 0 = 0 := by
    rw [quant24i32, satCast_eval _ _ _ 0 (by norm_num)]; decide
  have h32 : quant32 0 = 0 := by
    rw [quant32, satCast_eval _ _ _ 0 (by norm_num)]; decide
  have h8 : quant8 0 = 128 := by
    rw [quant8, satCast_eval _ _ _ 128 (by norm_num)]; decide
  refine ⟨⟨_, wrap_eq _ sr 16 _ rfl, ?_⟩, ⟨_, wrap_eq _ sr 24 _ rfl, ?_⟩,
    ⟨_, wrap_eq _ sr 32 _ rfl, ?_⟩, ⟨_, wrap_eq _ sr 8 _ rfl, ?_⟩⟩
  · rw [wavHeader_drop, h16]; decide
  · rw [wavHeader_drop, h24]; decide
  · rw [wavHeader_drop, h32]; decide
  · rw [wavHeader_drop, h8]; decide

/-- C8: the pair (1, -1) at bit depth 16 encodes to the left-channel sample
32767 (bytes FF 7F) followed by the right-channel sample -32767
(bytes 01 80), for every sample rate. -/
theorem C8_full_scale (sr : Nat) :
    quant16 1 = 32767 ∧ quant16 (-1) = -32767 ∧
    ∃ out, wrap_as_wav [(1, -1)] sr 16 = Except.ok out ∧
      out.drop 44 = [0xFF, 0x7F, 0x01, 0x80] := by
  have h1 : quant16 1 = 32767 := by
    rw [quant16, satCast_eval _ _ _ 32767 (by norm_num)]; decide
  have h2 : quant16 (-1) = -32767 := by
    rw [quant16, satCast_eval _ _ _ (-32767) (by norm_num)]; decide
  refine ⟨h1, h2, _, wrap_eq _ sr 16 _ rfl, ?_⟩
  rw [wavHeader_drop, h1, h2]; decide

/-- C9 counterexample: at the out-of-range amplitude 2 the emitted 3-byte
group sign-extends to 8388606, which is not within one quantization step of
the scaled-and-truncated amplitude 16777214. -/
theorem C9_counterexample :
    decodeS24 (convert24 (quant24i32 2)) = 8388606 ∧
      ratTrunc ((2 : ℚ) * 8388607) = 16777214 ∧
      ¬ ((8388606 : Int) - 16777214).natAbs ≤ 1 := by
  have h : quant24i32 2 = 16777214 := by
    rw [quant24i32, satCast_eval _ _ _ 16777214 (by norm_num)]; decide
  have h2 : ratTrunc ((2 : ℚ) * 8388607) = 16777214 := by
    rw [show ((2 : ℚ) * 8388607) = ((16777214 : Int) : ℚ) by norm_num,
      ratTrunc_intCast]
  exact ⟨by rw [h]; decide, h2, by decide⟩

/-- C9 amended: for every amplitude in [-1, 1] the emitted 3-byte group,
sign-extended to 32 bits, equals the amplitude scaled by 8388607 and
truncated exactly (so in particular it is within one quantization step and
the sign bit is preserved); outside [-1, 1] this fails. -/
theorem C9_exact_in_range (x : ℚ) (h1 : -1 ≤ x) (h2 : x ≤ 1) :
    decodeS24 (convert24 (quant24i32 x)) = ratTrunc (x * 8388607) := by
  have hlo : ((-8388607 : Int) : ℚ) ≤ x * 8388607 := by
    push_cast
    linarith
  have hhi : x * 8388607 ≤ ((8388607 : Int) : ℚ) := by
    push_cast
    linarith
  have t1 := le_ratTrunc _ _ hlo
  have t2 := ratTrunc_le _ _ hhi
  rw [quant24i32, satCast_of_mem _ _ _ (by omega) (by omega)]
  exact convert24_decode _ (by omega) (by omega)

/-- Witness for C9 amended at amplitude 1. -/
theorem C9_exact_in_range_witness :
    decodeS24 (convert24 (quant24i32 1)) = ratTrunc ((1 : ℚ) * 8388607) :=
  C9_exact_in_range 1 (by norm_num) le_rfl

/-- C10 counterexample: at amplitude -2 the 16-bit sample saturates to
-32768, not to -32767 as claimed for every amplitude at or below -1. -/
theorem C10_counterexample :
    quant16 (-2) = -32768 ∧ (-32768 : Int) ≠ -32767 := by
  constructor
  · rw [quant16, satCast_eval _ _ _ (-65534) (by norm_num)]; decide
  · decide

/-- C10 amended: out-of-range amplitudes saturate and never wrap: for
x at or above 1 the 16-bit sample is 32767 and the 8-bit sample 255; for x
at or below -1 the 8-bit sample is 0, while the 16-bit sample is -32767
when the scaled amplitude stays above the i16 floor -32768 and is the
saturation floor -32768 itself once x * 32767 reaches or passes it; every
quantizer lands inside its target range and the encoder never panics at a
valid bit depth. -/
theorem C10_saturation (x y : ℚ) :
    (1 ≤ x → quant16 x = 32767 ∧ quant8 x = 255) ∧
    (x ≤ -1 → quant8 x = 0) ∧
    (x ≤ -1 → (-32768 : ℚ) < x * 32767 → quant16 x = -32767) ∧
    (x * 32767 ≤ (-32768 : ℚ) → quant16 x = -32768) ∧
    (0 ≤ quant8 x ∧ quant8 x ≤ 255) ∧
    (-32768 ≤ quant16 x ∧ quant16 x ≤ 32767) ∧
    (-2147483648 ≤ quant24i32 x ∧ quant24i32 x ≤ 2147483647) ∧
    (-2147483648 ≤ quant32 x ∧ quant32 x ≤ 2147483647) ∧
    (pairBytes 8 (x, y)).isOk = true ∧ (pairBytes 16 (x, y)).isOk = true ∧
    (pairBytes 24 (x, y)).isOk = true ∧ (pairBytes 32 (x, y)).isOk = true := by
  refine ⟨?_, ?_, ?_, ?_, satCast_bounds _ _ _ (by decide),
    satCast_bounds _ _ _ (by decide), satCast_bounds _ _ _ (by decide),
    satCast_bounds _ _ _ (by decide), rfl, rfl, rfl, rfl⟩
  · intro hx
    constructor
    · exact satCast_hi _ _ _ (by decide)
        (le_ratTrunc _ _ (by push_cast; linarith))
    · exact satCast_hi _ _ _ (by decide)
        (le_ratTrunc _ _ (by push_cast; linarith))
  · intro hx
    exact satCast_lo _ _ _ (by decide)
      (ratTrunc_le _ _ (by push_cast; linarith))
  · intro hx hgt
    have hle : ratTrunc (x * 32767) ≤ -32767 :=
      ratTrunc_le _ _ (by push_cast; linarith)
    have hgt2 : (-32768 : Int) < ratTrunc (x * 32767) :=
      lt_ratTrunc_of_nonpos _ _ (by linarith) (by push_cast; linarith)
    rw [quant16, satCast_of_mem _ _ _ (by omega) (by omega)]
    omega
  · intro hx
    exact satCast_lo _ _ _ (by decide)
      (ratTrunc_le _ _ (by push_cast; linarith))

/-- Witness for C10 amended at amplitudes 2 and -2. -/
theorem C10_saturation_witness :
    quant16 2 = 32767 ∧ quant8 2 = 255 ∧ quant8 (-2) = 0 ∧
      quant16 (-2) = -32768 :=
  ⟨((C10_saturation 2 0).1 (by norm_num)).1,
    ((C10_saturation 2 0).1 (by norm_num)).2,
    (C10_saturation (-2) 0).2.1 (by norm_num),
    (C10_saturation (-2) 0).2.2.2.1 (by norm_num)⟩
